import Mathlib

/-!
Shallow embedding of the forecasting pipeline in
`Desplieque_modelos_equipoC/Pages/ensamblado.py`: data cleaning,
min-max normalization, SelectKBest feature selection, the 80/20
positional split, grid-search row requirements, the median-of-two
ensembling and the MAPE/RMSE metrics.

Modelling conventions: machine floats are modelled as exact rationals;
a pandas frame is a list of rows whose cells are `Option ℚ` (`none`
stands for a missing value / NaN) or, for the column-wise operations,
a list of columns; the fitted models are abstract functions from a
feature row to a prediction, since their numerical training is outside
the properties considered here.
-/

namespace Ensamblado

/-- A cell of a raw frame; `none` models a missing value (NaN). -/
abbrev Cell := Option ℚ

/-- A raw record (row) of the fetched price history. -/
abbrev RawRow := List Cell

/-- A raw frame: the ordered rows of the fetched price history. -/
abbrev RawFrame := List RawRow

/-- A row is complete when no field is missing (pandas keeps exactly these rows in `dropna`). -/
def rowComplete (r : RawRow) : Bool := r.all (fun c => c.isSome)

/-- `clean_data` (ensamblado.py line 16): `data.dropna()` keeps exactly the rows
without missing values. -/
def clean_data (data : RawFrame) : RawFrame := data.filter rowComplete

/-- Minimum of a column (the fitted `data_min_` of `MinMaxScaler`); 0 on an empty column,
which sklearn rejects before fitting. -/
def colMin : List ℚ → ℚ
  | [] => 0
  | x :: xs => xs.foldl min x

/-- Maximum of a column (the fitted `data_max_` of `MinMaxScaler`). -/
def colMax : List ℚ → ℚ
  | [] => 0
  | x :: xs => xs.foldl max x

/-- sklearn `_handle_zeros_in_scale`: a zero range is replaced by 1 so that a
constant column is not divided by zero. -/
def handle_zeros (d : ℚ) : ℚ := if d = 0 then 1 else d

/-- `MinMaxScaler` on one column: `(x - data_min) / handle_zeros (data_max - data_min)`,
with the default feature range [0, 1]. -/
def normalizeCol (c : List ℚ) : List ℚ :=
  c.map (fun x => (x - colMin c) / handle_zeros (colMax c - colMin c))

/-- `normalize_data` (ensamblado.py line 24): `MinMaxScaler().fit_transform(data)`;
the frame is represented column-major since the scaler works per column. -/
def normalize_data (cols : List (List ℚ)) : List (List ℚ) := cols.map normalizeCol

/-- A named column of the normalized frame. -/
abbrev Col := String × List ℚ

/-- An abstract scoring statistic (sklearn `mutual_info_regression` / `f_regression`):
a function of a feature column and the target column. -/
abbrev ScoreFn := List ℚ → List ℚ → ℚ

/-- Insertion step of a stable sort over index lists. -/
def insBy (le : ℕ → ℕ → Bool) (x : ℕ) : List ℕ → List ℕ
  | [] => [x]
  | y :: ys => if le x y then x :: y :: ys else y :: insBy le x ys

/-- Stable insertion sort over index lists (the stable `argsort` used by `SelectKBest`). -/
def sortBy (le : ℕ → ℕ → Bool) : List ℕ → List ℕ
  | [] => []
  | x :: xs => insBy le x (sortBy le xs)

/-- Indices of the scores in ascending score order (`np.argsort(scores)`). -/
def argsort (scores : List ℚ) : List ℕ :=
  sortBy (fun i j => decide (scores.getD i 0 ≤ scores.getD j 0)) (List.range scores.length)

/-- `SelectKBest._get_support_mask` with `indices=True`: the k highest-scoring column
indices (the last k of the ascending argsort), returned in ascending index order. -/
def kbest_indices (scores : List ℚ) (k : ℕ) : List ℕ :=
  sortBy (fun i j => decide (i ≤ j)) ((argsort scores).drop (scores.length - k))

/-- `X.columns[k_best.get_support(indices=True)].tolist()` (ensamblado.py line 39):
the names of the k columns best ranked by the score function `f`. -/
def kbest_names (X : List Col) (y : List ℚ) (f : ScoreFn) (k : ℕ) : List String :=
  (kbest_indices (X.map (fun c => f c.2 y)) k).map (fun i => (X.map Prod.fst).getD i "")

/-- `select_features` (ensamblado.py line 33): computes the mutual-information scores
(bound but never used afterwards, exactly as in the source), then fits
`SelectKBest(score_func=f_regression, k=num_features)`, which raises a `ValueError`
unless `0 <= k <= n_features`, and returns the selected column names. -/
def select_features (X : List Col) (y : List ℚ) (num_features : ℕ)
    (mi f : ScoreFn) : Except String (List String) :=
  let mutual_info := X.map (fun c => mi c.2 y)
  if num_features ≤ X.length then Except.ok (kbest_names X y f num_features)
  else Except.error "k should be <= n_features"

/-- Feature-selection step of `generate_predictions` (ensamblado.py lines 105-109):
`target_column = 'Close'`, `num_features = 5`; the candidate matrix is
`data.drop(columns=[target_column])`, the target is `data[target_column]`, and the
target column is appended to the selected names. -/
def feature_step (data : List Col) (mi f : ScoreFn) : Except String (List String) :=
  match select_features (data.filter (fun c => !(c.1 == "Close")))
      (((data.find? (fun c => c.1 == "Close")).map Prod.snd).getD []) 5 mi f with
  | Except.ok selected => Except.ok (selected ++ ["Close"])
  | Except.error e => Except.error e

/-- `train_size = int(len(X) * 0.8)` (ensamblado.py line 116): truncation of the float
product agrees with `⌊0.8 · n⌋ = 4n / 5` in natural division for every realistic n. -/
def train_size (n : ℕ) : ℕ := 4 * n / 5

/-- `X[:train_size]` (ensamblado.py line 117): the positional training segment. -/
def split_train {α : Type} (l : List α) : List α := l.take (train_size l.length)

/-- `X[train_size:]` (ensamblado.py line 117): the positional test segment. -/
def split_test {α : Type} (l : List α) : List α := l.drop (train_size l.length)

/-- Error raised by sklearn `KFold` when asked for more splits than samples. -/
def cvErrMsg : String :=
  "Cannot have number of splits n_splits=5 greater than the number of samples"

/-- Row requirement of `optimize_svm` (ensamblado.py lines 58-65):
`GridSearchCV(SVR(), param_grid, refit=True, cv=5)` raises through `KFold`
exactly when the training segment has fewer than `n_splits = 5` rows. -/
def optimize_svm_check (nTrainRows : ℕ) : Except String Unit :=
  if nTrainRows < 5 then Except.error cvErrMsg else Except.ok ()

/-- The cross-validation row requirement of the whole pipeline on a cleaned series of
`nCleanRows` rows: `optimize_svm` runs on the `train_size` first rows. -/
def pipeline_cv_check (nCleanRows : ℕ) : Except String Unit :=
  optimize_svm_check (train_size nCleanRows)

/-- `np.median` over exactly two values: the two order statistics averaged. -/
def npMedian2 (x y : ℚ) : ℚ := (min x y + max x y) / 2

/-- `np.median([svm_predictions, lstm_predictions], axis=0)` (ensamblado.py line 132):
the elementwise median of the two prediction vectors. -/
def combine (predA predB : List ℚ) : List ℚ := List.zipWith npMedian2 predA predB

/-- `np.finfo(np.float64).eps`, the denominator floor used by sklearn
`mean_absolute_percentage_error`. -/
def npEps : ℚ := 1 / 2 ^ 52

/-- sklearn `mean_absolute_percentage_error` (ensamblado.py lines 135-137):
the mean of `|y - yhat| / max(|y|, eps)`. -/
def mean_absolute_percentage_error (yTrue yPred : List ℚ) : ℚ :=
  (List.zipWith (fun a p => |a - p| / max |a| npEps) yTrue yPred).sum / (yTrue.length : ℚ)

/-- sklearn `mean_squared_error`: the mean of the squared residuals. -/
def mean_squared_error (yTrue yPred : List ℚ) : ℚ :=
  (List.zipWith (fun a p => (a - p) ^ 2) yTrue yPred).sum / (yTrue.length : ℚ)

/-- `np.sqrt(mean_squared_error(...))` (ensamblado.py lines 138-140): the root of the
mean squared error, living in ℝ since the root of a rational is irrational in general. -/
noncomputable def rmse (yTrue yPred : List ℚ) : ℝ :=
  Real.sqrt ((mean_squared_error yTrue yPred : ℚ) : ℝ)

/-- The aligned vectors returned by `generate_predictions` (ensamblado.py lines 130-132,
142-145): the three prediction series, the ground-truth test series, and the pandas
index each prediction series is constructed with (`index=X_test.index`). -/
structure PredBundle where
  svm : List ℚ
  lstm : List ℚ
  combined : List ℚ
  yTest : List ℚ
  svmIdx : List ℕ
  lstmIdx : List ℕ
  combIdx : List ℕ

/-- Core of `generate_predictions` (ensamblado.py lines 111-132) after cleaning,
normalization and feature selection: the frame carries index `0..n-1` (the
normalization step rebuilt it as a fresh `RangeIndex`), the split is positional at
`train_size`, each model is fitted on the training segment and applied row-wise to the
test segment, and the three prediction series are built with `index=X_test.index`. -/
def generate_predictions_core
    (fitSvm fitLstm : List (List ℚ) → List ℚ → (List ℚ → ℚ))
    (X : List (List ℚ)) (y : List ℚ) : PredBundle :=
  let ts := train_size X.length
  let XTrain := X.take ts
  let XTest := X.drop ts
  let yTrain := y.take ts
  let yTest := y.drop ts
  let testIdx := (List.range X.length).drop ts
  let svm_model := fitSvm XTrain yTrain
  let lstm_model := fitLstm XTrain yTrain
  let svm_predictions := XTest.map svm_model
  let lstm_predictions := XTest.map lstm_model
  ⟨svm_predictions, lstm_predictions, combine svm_predictions lstm_predictions,
    yTest, testIdx, testIdx, testIdx⟩

/-- Date handling of `generate_predictions` (ensamblado.py lines 96-98, 101, 116, 119):
`dates` is captured before cleaning, the numeric frame is cleaned (`dropna`), and
`dates_test = dates[train_size:]` slices the original date series at the position
computed from the cleaned frame's length. -/
def generate_dates_test (dates : List ℕ) (raw : RawFrame) : List ℕ :=
  let cleaned := clean_data raw
  dates.drop (train_size cleaned.length)

/-- Specification-side reference for the test-segment date vector, following the
spec's words: the date column is carried alongside the numeric frame by row position,
so after cleaning the i-th test date is the date of the i-th surviving test row. -/
def spec_dates_test (dates : List ℕ) (raw : RawFrame) : List ℕ :=
  let kept := (dates.zip raw).filter (fun p => rowComplete p.2)
  (kept.map Prod.fst).drop (train_size kept.length)

/-- Every fold of the left fold by `min` is below the initial accumulator. -/
theorem foldl_min_le (l : List ℚ) (a : ℚ) : l.foldl min a ≤ a := by
  induction l generalizing a with
  | nil => simp
  | cons x xs ih => exact le_trans (ih (min a x)) (min_le_left a x)

/-- The left fold by `min` is below every member of the list. -/
theorem foldl_min_le_mem (l : List ℚ) (a x : ℚ) (hx : x ∈ l) : l.foldl min a ≤ x := by
  induction l generalizing a with
  | nil => cases hx
  | cons y ys ih =>
    rcases List.mem_cons.mp hx with h | h
    · subst h
      exact le_trans (foldl_min_le ys (min a x)) (min_le_right a x)
    · exact ih (min a y) h

/-- Every fold of the left fold by `max` is above the initial accumulator. -/
theorem le_foldl_max (l : List ℚ) (a : ℚ) : a ≤ l.foldl max a := by
  induction l generalizing a with
  | nil => simp
  | cons x xs ih => exact le_trans (le_max_left a x) (ih (max a x))

/-- The left fold by `max` is above every member of the list. -/
theorem mem_le_foldl_max (l : List ℚ) (a x : ℚ) (hx : x ∈ l) : x ≤ l.foldl max a := by
  induction l generalizing a with
  | nil => cases hx
  | cons y ys ih =>
    rcases List.mem_cons.mp hx with h | h
    · subst h
      exact le_trans (le_max_right a x) (le_foldl_max ys (max a x))
    · exact ih (max a y) h

/-- The column minimum is below every member of the column. -/
theorem colMin_le_mem (c : List ℚ) (x : ℚ) (hx : x ∈ c) : colMin c ≤ x := by
  cases c with
  | nil => cases hx
  | cons y ys =>
    rcases List.mem_cons.mp hx with h | h
    · subst h; exact foldl_min_le ys x
    · exact foldl_min_le_mem ys y x h

/-- Every member of the column is below the column maximum. -/
theorem mem_le_colMax (c : List ℚ) (x : ℚ) (hx : x ∈ c) : x ≤ colMax c := by
  cases c with
  | nil => cases hx
  | cons y ys =>
    rcases List.mem_cons.mp hx with h | h
    · subst h; exact le_foldl_max ys x
    · exact mem_le_foldl_max ys y x h

/-- C8: cleaning is idempotent — one `dropna` pass removes every row containing a
missing value, so a second pass removes nothing — and cleaning is a total function
that only ever shrinks the series. -/
theorem clean_data_idempotent (d : RawFrame) :
    clean_data (clean_data d) = clean_data d ∧ (clean_data d).length ≤ d.length := by
  constructor
  · simp [clean_data, List.filter_filter]
  · exact List.length_filter_le _ _

/-- C7 counterexample: a cleaned series of 24 rows (fewer than 25) passes the 5-fold
cross-validation requirement of `optimize_svm` — its training segment has
`int(24 * 0.8) = 19 ≥ 5` rows — so the pipeline does not raise for it. -/
theorem cv_check_passes_at_24 : pipeline_cv_check 24 = Except.ok () := rfl

/-- C7 (amended): the 5-fold cross-validation inside `optimize_svm` rejects the run
exactly when the cleaned series has fewer than 7 rows, i.e. when its training segment
`int(n * 0.8)` has fewer than `n_splits = 5` rows. -/
theorem cv_check_error_iff (n : ℕ) :
    pipeline_cv_check n = Except.error cvErrMsg ↔ n < 7 := by
  constructor
  · intro he
    by_contra hn
    have hts : ¬ train_size n < 5 := by unfold train_size; omega
    simp [pipeline_cv_check, optimize_svm_check, hts] at he
  · intro hn
    have hts : train_size n < 5 := by unfold train_size; omega
    simp [pipeline_cv_check, optimize_svm_check, hts]

/-- C7 witness: a 6-row cleaned series (training segment of 4 rows) is rejected by the
cross-validation requirement. -/
theorem cv_check_error_iff_witness : pipeline_cv_check 6 = Except.error cvErrMsg :=
  (cv_check_error_iff 6).mpr (by decide)

/-- C1: on a series whose first row contains a missing value, the date vector produced
by `generate_predictions` is `[3, 4]` — the original date series sliced at the cleaned
frame's train size — while the dates of the rows actually in the test split are `[4]`:
the returned date axis is not paired with the test rows when cleaning drops rows, and
its length does not even match the test split's. -/
theorem dates_test_misaligned :
    generate_dates_test [0, 1, 2, 3, 4] [[none], [some 1], [some 2], [some 3], [some 4]]
        = [3, 4] ∧
    spec_dates_test [0, 1, 2, 3, 4] [[none], [some 1], [some 2], [some 3], [some 4]]
        = [4] ∧
    generate_dates_test [0, 1, 2, 3, 4] [[none], [some 1], [some 2], [some 3], [some 4]]
        ≠ spec_dates_test [0, 1, 2, 3, 4] [[none], [some 1], [some 2], [some 3], [some 4]] := by
  refine ⟨by decide, by decide, by decide⟩

/-- C3: the split of `generate_predictions` is positional and unshuffled — the
training segment is exactly the first `int(n * 0.8)` rows, training and test segments
concatenate back to the series — and on a date-sorted series every training date is
at most every test date. -/
theorem split_positional_no_leakage (dates : List ℚ)
    (hs : List.Sorted (· ≤ ·) dates) :
    split_train dates = dates.take (4 * dates.length / 5) ∧
    (split_train dates).length = 4 * dates.length / 5 ∧
    split_train dates ++ split_test dates = dates ∧
    (∀ d ∈ split_train dates, ∀ e ∈ split_test dates, d ≤ e) := by
  refine ⟨rfl, ?_, List.take_append_drop _ _, ?_⟩
  · simp only [split_train, train_size, List.length_take]
    omega
  · have h := hs
    rw [← List.take_append_drop (train_size dates.length) dates] at h
    exact (List.pairwise_append.mp h).2.2

/-- C3 witness: the split of the concrete sorted six-day series. -/
theorem split_positional_no_leakage_witness :
    split_train ([0, 1, 2, 3, 4, 5] : List ℚ)
        = ([0, 1, 2, 3, 4, 5] : List ℚ).take (4 * ([0, 1, 2, 3, 4, 5] : List ℚ).length / 5) ∧
    (split_train ([0, 1, 2, 3, 4, 5] : List ℚ)).length
        = 4 * ([0, 1, 2, 3, 4, 5] : List ℚ).length / 5 ∧
    split_train ([0, 1, 2, 3, 4, 5] : List ℚ) ++ split_test ([0, 1, 2, 3, 4, 5] : List ℚ)
        = [0, 1, 2, 3, 4, 5] ∧
    (∀ d ∈ split_train ([0, 1, 2, 3, 4, 5] : List ℚ),
      ∀ e ∈ split_test ([0, 1, 2, 3, 4, 5] : List ℚ), d ≤ e) :=
  split_positional_no_leakage [0, 1, 2, 3, 4, 5] (by decide)

/-- C2: the ensemble prediction at every test row is the elementwise median of the
kernel and sequence predictions, hence lies between them and, for two members, equals
their mean. -/
theorem combine_median_bound (a b : List ℚ) (i : ℕ)
    (h1 : i < a.length) (h2 : i < b.length) (h3 : i < (combine a b).length) :
    min a[i] b[i] ≤ (combine a b)[i] ∧ (combine a b)[i] ≤ max a[i] b[i] ∧
    (combine a b)[i] = (a[i] + b[i]) / 2 := by
  have hv : (combine a b)[i] = npMedian2 a[i] b[i] := by
    simp [combine, List.getElem_zipWith]
  rw [hv]
  unfold npMedian2
  refine ⟨?_, ?_, ?_⟩
  · rcases le_total a[i] b[i] with h | h <;>
      rw [min_def, max_def] <;> split_ifs <;> linarith
  · rcases le_total a[i] b[i] with h | h <;>
      rw [min_def, max_def] <;> split_ifs <;> linarith
  · rw [min_add_max]

/-- C2 witness: the ensemble of the concrete vectors [1, 5] and [3, 2] at row 0. -/
theorem combine_median_bound_witness :
    min ((1 : ℚ)) 3 ≤ (combine [1, 5] [3, 2]).get ⟨0, by decide⟩ ∧
    (combine [1, 5] [3, 2]).get ⟨0, by decide⟩ ≤ max 1 3 ∧
    (combine [1, 5] [3, 2]).get ⟨0, by decide⟩ = (1 + 3) / 2 := by
  have h := combine_median_bound [1, 5] [3, 2] 0 (by decide) (by decide) (by decide)
  simpa using h

/-- Inserting by `insBy` grows the length by one. -/
theorem length_insBy (le : ℕ → ℕ → Bool) (x : ℕ) (l : List ℕ) :
    (insBy le x l).length = l.length + 1 := by
  induction l with
  | nil => rfl
  | cons y ys ih =>
    unfold insBy
    split
    · rfl
    · simp [ih]

/-- Sorting by `sortBy` preserves the length. -/
theorem length_sortBy (le : ℕ → ℕ → Bool) (l : List ℕ) :
    (sortBy le l).length = l.length := by
  induction l with
  | nil => rfl
  | cons y ys ih =>
    unfold sortBy
    rw [length_insBy, ih, List.length_cons]

/-- C4: when at least k candidate columns exist, `select_features` returns exactly the
k names ranked best by the F statistic; when fewer than k exist, `SelectKBest` raises
its configuration `ValueError` instead of silently returning fewer names. -/
theorem select_features_count (X : List Col) (y : List ℚ) (k : ℕ) (mi f : ScoreFn) :
    (k ≤ X.length →
      select_features X y k mi f = Except.ok (kbest_names X y f k) ∧
      (kbest_names X y f k).length = k) ∧
    (X.length < k →
      select_features X y k mi f = Except.error "k should be <= n_features") := by
  constructor
  · intro hk
    constructor
    · simp [select_features, hk]
    · simp only [kbest_names, kbest_indices, List.length_map, length_sortBy,
        List.length_drop, argsort, List.length_range]
      omega
  · intro hk
    simp [select_features, Nat.not_le.mpr hk]

/-- C4 witness: with two candidate columns, asking for one name succeeds with exactly
one name and asking for three raises the configuration error. -/
theorem select_features_count_witness :
    (select_features [("a", []), ("b", [])] [] 1 (fun _ _ => 0) (fun _ _ => 0)
        = Except.ok (kbest_names [("a", []), ("b", [])] [] (fun _ _ => 0) 1) ∧
      (kbest_names [("a", []), ("b", [])] [] (fun _ _ => 0) 1).length = 1) ∧
    select_features [("a", []), ("b", [])] [] 3 (fun _ _ => 0) (fun _ _ => 0)
        = Except.error "k should be <= n_features" :=
  ⟨(select_features_count [("a", []), ("b", [])] [] 1 (fun _ _ => 0) (fun _ _ => 0)).1
      (by decide),
   (select_features_count [("a", []), ("b", [])] [] 3 (fun _ _ => 0) (fun _ _ => 0)).2
      (by decide)⟩

/-- C5: the mutual-information statistic is computed but has no effect on which columns
`select_features` returns (the F ranking alone decides); the candidate matrix handed to
the scorer by `generate_predictions` contains no `Close` column; and every successful
selection ends with the target column appended to the selected names. -/
theorem mi_unused_target_included (X : List Col) (y : List ℚ) (k : ℕ)
    (mi₁ mi₂ f : ScoreFn) (data : List Col) (feats : List String) :
    select_features X y k mi₁ f = select_features X y k mi₂ f ∧
    (∀ c ∈ data.filter (fun c => !(c.1 == "Close")), c.1 ≠ "Close") ∧
    (feature_step data mi₁ f = Except.ok feats → "Close" ∈ feats) := by
  refine ⟨rfl, ?_, ?_⟩
  · intro c hc
    have h := (List.mem_filter.mp hc).2
    simpa using h
  · intro h
    unfold feature_step at h
    split at h
    · cases h
      exact List.mem_append_right _ (by simp)
    · cases h

/-- C5 witness: on a concrete six-column frame the pipeline's feature step succeeds
and its result contains the target column `Close`. -/
theorem mi_unused_target_included_witness :
    feature_step [("Open", []), ("High", []), ("Low", []), ("Adj Close", []),
        ("Volume", []), ("Close", [])] (fun _ _ => 0) (fun _ _ => 0)
      = Except.ok ["Open", "High", "Low", "Adj Close", "Volume", "Close"] ∧
    "Close" ∈ ["Open", "High", "Low", "Adj Close", "Volume", "Close"] :=
  ⟨rfl,
   (mi_unused_target_included [] [] 0 (fun _ _ => 0) (fun _ _ => 0) (fun _ _ => 0)
      [("Open", []), ("High", []), ("Low", []), ("Adj Close", []),
        ("Volume", []), ("Close", [])]
      ["Open", "High", "Low", "Adj Close", "Volume", "Close"]).2.2 rfl⟩

/-- C10: on every run of the prediction core, the kernel, sequence and ensemble
prediction vectors and the ground-truth test vector all have length
`n - int(n * 0.8)`, and the three prediction series are built with the identical
row index — the index of the test split. -/
theorem prediction_vectors_aligned
    (fitSvm fitLstm : List (List ℚ) → List ℚ → (List ℚ → ℚ))
    (X : List (List ℚ)) (y : List ℚ) (h : y.length = X.length) :
    (generate_predictions_core fitSvm fitLstm X y).svm.length
        = X.length - train_size X.length ∧
    (generate_predictions_core fitSvm fitLstm X y).lstm.length
        = X.length - train_size X.length ∧
    (generate_predictions_core fitSvm fitLstm X y).combined.length
        = X.length - train_size X.length ∧
    (generate_predictions_core fitSvm fitLstm X y).yTest.length
        = X.length - train_size X.length ∧
    (generate_predictions_core fitSvm fitLstm X y).svmIdx
        = (generate_predictions_core fitSvm fitLstm X y).lstmIdx ∧
    (generate_predictions_core fitSvm fitLstm X y).lstmIdx
        = (generate_predictions_core fitSvm fitLstm X y).combIdx ∧
    (generate_predictions_core fitSvm fitLstm X y).svmIdx
        = (List.range X.length).drop (train_size X.length) := by
  refine ⟨?_, ?_, ?_, ?_, rfl, rfl, rfl⟩ <;>
    simp [generate_predictions_core, combine, List.length_zipWith, h]

/-- C10 witness: the concrete five-row frame yields one test row, and all four vectors
of the bundle have length one. -/
theorem prediction_vectors_aligned_witness :
    ([1, 2, 3, 4, 5] : List ℚ).length = ([[1], [2], [3], [4], [5]] : List (List ℚ)).length ∧
    (generate_predictions_core (fun _ _ _ => 0) (fun _ _ _ => 0)
        [[1], [2], [3], [4], [5]] [1, 2, 3, 4, 5]).svm.length = 1 ∧
    (generate_predictions_core (fun _ _ _ => 0) (fun _ _ _ => 0)
        [[1], [2], [3], [4], [5]] [1, 2, 3, 4, 5]).combined.length = 1 := by
  refine ⟨rfl, ?_, ?_⟩
  · have h := prediction_vectors_aligned (fun _ _ _ => 0) (fun _ _ _ => 0)
      [[1], [2], [3], [4], [5]] [1, 2, 3, 4, 5] rfl
    rw [h.1]
    decide
  · have h := prediction_vectors_aligned (fun _ _ _ => 0) (fun _ _ _ => 0)
      [[1], [2], [3], [4], [5]] [1, 2, 3, 4, 5] rfl
    rw [h.2.2.1]
    decide

/-- C6 counterexample: a constant column — here two rows both holding 5, so the frame
has at least one row per column and every row holds the column's maximum — is mapped
entirely to 0 by the scaler, not to 1. -/
theorem normalize_constant_column :
    normalize_data [[(5 : ℚ), 5]] = [[0, 0]] ∧ ((0 : ℚ) ≠ 1) := by
  constructor
  · simp [normalize_data, normalizeCol, colMin, colMax, handle_zeros]
  · norm_num

/-- C6 (amended): every normalized value of a column lies in [0, 1], any row holding
the column minimum maps to exactly 0, and any row holding the column maximum maps to
exactly 1 provided the column is not constant (a constant column maps entirely to 0,
because the scaler replaces its zero range by 1). -/
theorem normalizeCol_range (col : List ℚ) (i : ℕ) (hi : i < col.length)
    (hni : i < (normalizeCol col).length) :
    (0 ≤ (normalizeCol col)[i] ∧ (normalizeCol col)[i] ≤ 1) ∧
    (col[i] = colMin col → (normalizeCol col)[i] = 0) ∧
    (col[i] = colMax col → colMin col ≠ colMax col → (normalizeCol col)[i] = 1) := by
  have hmem : col[i] ∈ col := List.getElem_mem hi
  have hm : colMin col ≤ col[i] := colMin_le_mem col _ hmem
  have hM : col[i] ≤ colMax col := mem_le_colMax col _ hmem
  have hval : (normalizeCol col)[i]
      = (col[i] - colMin col) / handle_zeros (colMax col - colMin col) := by
    simp [normalizeCol, List.getElem_map]
  by_cases hc : colMax col - colMin col = 0
  · have hz : handle_zeros (colMax col - colMin col) = 1 := by rw [hc]; rfl
    have hnum : col[i] - colMin col = 0 := by linarith
    have hv0 : (normalizeCol col)[i] = 0 := by rw [hval, hz, hnum]; norm_num
    refine ⟨⟨?_, ?_⟩, fun _ => hv0, fun _ hne => absurd (by linarith) hne⟩
    · simp [hv0]
    · simp [hv0]
  · have hle : colMin col ≤ colMax col := le_trans hm hM
    have hlt : (0 : ℚ) < colMax col - colMin col := by
      rcases lt_or_eq_of_le hle with h | h
      · linarith
      · exact absurd (by rw [h]; ring) hc
    have hz : handle_zeros (colMax col - colMin col) = colMax col - colMin col := by
      simp [handle_zeros, hc]
    rw [hval, hz]
    refine ⟨⟨div_nonneg (by linarith) (le_of_lt hlt), ?_⟩, fun hmin => ?_, fun hmax _ => ?_⟩
    · rw [div_le_one hlt]; linarith
    · rw [hmin]; simp
    · rw [hmax]; exact div_self (ne_of_gt hlt)

/-- C6 witness: in the two-row column [1, 3], the minimum row maps to 0, the maximum
row maps to 1, and the value at row 0 lies in [0, 1]. -/
theorem normalizeCol_range_witness :
    (normalizeCol [1, 3]).get ⟨0, by decide⟩ = 0 ∧
    (normalizeCol [1, 3]).get ⟨1, by decide⟩ = 1 ∧
    (0 ≤ (normalizeCol [1, 3]).get ⟨0, by decide⟩ ∧
      (normalizeCol [1, 3]).get ⟨0, by decide⟩ ≤ 1) := by
  have h0 := normalizeCol_range [1, 3] 0 (by decide) (by decide)
  have h1 := normalizeCol_range [1, 3] 1 (by decide) (by decide)
  exact ⟨h0.2.1 (by norm_num [colMin, min_def]),
    h1.2.2 (by norm_num [colMax, max_def])
      (by norm_num [colMin, colMax, min_def, max_def]), h0.1⟩

/-- A list of nonnegative rationals sums to zero iff every element is zero. -/
theorem sum_eq_zero_iff_of_nonneg (l : List ℚ) (h : ∀ x ∈ l, 0 ≤ x) :
    l.sum = 0 ↔ ∀ x ∈ l, x = 0 := by
  induction l with
  | nil => simp
  | cons x xs ih =>
    have hx : 0 ≤ x := h x (List.mem_cons_self x xs)
    have hxs : ∀ z ∈ xs, 0 ≤ z := fun z hz => h z (List.mem_cons_of_mem x hz)
    have hsum : 0 ≤ xs.sum := List.sum_nonneg hxs
    rw [List.sum_cons]
    constructor
    · intro h0
      have hx0 : x = 0 := by linarith
      have hs0 : xs.sum = 0 := by linarith
      intro z hz
      rcases List.mem_cons.mp hz with rfl | hz2
      · exact hx0
      · exact ((ih hxs).mp hs0) z hz2
    · intro hall
      have h1 : x = 0 := hall x (List.mem_cons_self x xs)
      have h2 : xs.sum = 0 :=
        (ih hxs).mpr (fun z hz => hall z (List.mem_cons_of_mem x hz))
      rw [h1, h2, add_zero]

/-- The sum of a pointwise nonnegative combination of two lists is nonnegative. -/
theorem zipWith_sum_nonneg (f : ℚ → ℚ → ℚ) (hnn : ∀ x y, 0 ≤ f x y) :
    ∀ (a p : List ℚ), 0 ≤ (List.zipWith f a p).sum := by
  intro a
  induction a with
  | nil => intro p; simp
  | cons x xs ih =>
    intro p
    cases p with
    | nil => simp
    | cons y ys =>
      rw [List.zipWith_cons_cons, List.sum_cons]
      have h1 := hnn x y
      have h2 := ih ys
      linarith

/-- For a pointwise nonnegative combination vanishing exactly on equal arguments,
the summed combination of two equally long lists vanishes iff the lists are equal. -/
theorem zipWith_sum_eq_zero_iff (f : ℚ → ℚ → ℚ)
    (hnn : ∀ x y, 0 ≤ f x y) (hz : ∀ x y, f x y = 0 ↔ x = y) :
    ∀ (a p : List ℚ), a.length = p.length →
      ((List.zipWith f a p).sum = 0 ↔ a = p) := by
  intro a
  induction a with
  | nil =>
    intro p hp
    cases p with
    | nil => simp
    | cons y ys => simp at hp
  | cons x xs ih =>
    intro p hp
    cases p with
    | nil => simp at hp
    | cons y ys =>
      have hlen : xs.length = ys.length := by simpa using hp
      rw [List.zipWith_cons_cons, List.sum_cons]
      have h1 := hnn x y
      have h2 := zipWith_sum_nonneg f hnn xs ys
      constructor
      · intro h0
        have hf0 : f x y = 0 := by linarith
        have hs0 : (List.zipWith f xs ys).sum = 0 := by linarith
        have hxy := (hz x y).mp hf0
        have hrest := (ih ys hlen).mp hs0
        rw [hxy, hrest]
      · intro he
        injection he with hx hxs
        rw [(hz x y).mpr hx, (ih ys hlen).mpr hxs, add_zero]

/-- C9: the mean absolute percentage error and the root-mean-square error of the
scoring step are nonnegative, and each vanishes exactly when the predicted vector
equals the actual vector. -/
theorem metrics_nonneg_zero_iff (a p : List ℚ)
    (hl : a.length = p.length) (hne : a ≠ []) :
    0 ≤ mean_absolute_percentage_error a p ∧
    (mean_absolute_percentage_error a p = 0 ↔ a = p) ∧
    0 ≤ rmse a p ∧
    (rmse a p = 0 ↔ a = p) := by
  have hlen0 : 0 < a.length := List.length_pos.mpr hne
  have hn : (0 : ℚ) < (a.length : ℚ) := by exact_mod_cast hlen0
  have hnn1 : ∀ x y : ℚ, 0 ≤ |x - y| / max |x| npEps := by
    intro x y
    exact div_nonneg (abs_nonneg _)
      (le_trans (by norm_num [npEps]) (le_max_right |x| npEps))
  have hz1 : ∀ x y : ℚ, |x - y| / max |x| npEps = 0 ↔ x = y := by
    intro x y
    rw [div_eq_zero_iff]
    have hpos : (0 : ℚ) < max |x| npEps :=
      lt_of_lt_of_le (by norm_num [npEps]) (le_max_right _ _)
    constructor
    · rintro (h | h)
      · have := abs_eq_zero.mp h; linarith
      · linarith
    · intro h; subst h; simp
  have hnn2 : ∀ x y : ℚ, 0 ≤ (x - y) ^ 2 := fun x y => sq_nonneg _
  have hz2 : ∀ x y : ℚ, (x - y) ^ 2 = 0 ↔ x = y := by
    intro x y
    rw [sq_eq_zero_iff, sub_eq_zero]
  have hsum1 := zipWith_sum_nonneg _ hnn1 a p
  have hsum2 := zipWith_sum_nonneg _ hnn2 a p
  have hmse_nonneg : 0 ≤ mean_squared_error a p :=
    div_nonneg hsum2 (le_of_lt hn)
  have hmse_zero : mean_squared_error a p = 0 ↔ a = p := by
    unfold mean_squared_error
    rw [div_eq_zero_iff]
    constructor
    · rintro (h | h)
      · exact (zipWith_sum_eq_zero_iff _ hnn2 hz2 a p hl).mp h
      · linarith
    · intro h
      exact Or.inl ((zipWith_sum_eq_zero_iff _ hnn2 hz2 a p hl).mpr h)
  refine ⟨div_nonneg hsum1 (le_of_lt hn), ?_, Real.sqrt_nonneg _, ?_⟩
  · unfold mean_absolute_percentage_error
    rw [div_eq_zero_iff]
    constructor
    · rintro (h | h)
      · exact (zipWith_sum_eq_zero_iff _ hnn1 hz1 a p hl).mp h
      · linarith
    · intro h
      exact Or.inl ((zipWith_sum_eq_zero_iff _ hnn1 hz1 a p hl).mpr h)
  · unfold rmse
    rw [Real.sqrt_eq_zero']
    constructor
    · intro h
      have hcast : (mean_squared_error a p : ℝ) = 0 :=
        le_antisymm h (by exact_mod_cast hmse_nonneg)
      exact hmse_zero.mp (by exact_mod_cast hcast)
    · intro h
      have h0 : mean_squared_error a p = 0 := hmse_zero.mpr h
      rw [h0]
      norm_num

/-- C9 witness: on the concrete pair of equal vectors [1, 2], the percentage error
vanishes and the error is nonnegative. -/
theorem metrics_nonneg_zero_iff_witness :
    0 ≤ mean_absolute_percentage_error [1, 2] [1, 2] ∧
    (mean_absolute_percentage_error [1, 2] [1, 2] = 0 ↔ ([1, 2] : List ℚ) = [1, 2]) := by
  have h := metrics_nonneg_zero_iff [1, 2] [1, 2] rfl (by decide)
  exact ⟨h.1, h.2.1⟩

end Ensamblado
